import Mathlib

/-!
Verification of the day05 range-mapping engine (`src/day05/src/main.rs`).

The Rust source is shallowly embedded below: `usize` becomes `Nat`
(no subtraction in the source can underflow on the executed paths),
`Vec` becomes `List`, `Option`/`Result` become `Option`/`Except`,
the `HashMap<Entry, Mapping>` becomes an association list, and the
unbounded `loop` in `seed_range_to_min_location` becomes a fueled
recursion whose out-of-fuel marker witnesses non-termination.
Array-indexing panics are modelled by explicit `panicked` results.
-/

/-- Embeds the Rust enum `Entry` (the chain categories). -/
inductive Entry where
  | Seed
  | Soil
  | Fertilizer
  | Water
  | Light
  | Temperature
  | Humidity
  | Location
deriving DecidableEq, Repr

/-- Embeds the Rust struct `Range { start: usize, len: usize }`,
representing the half-open interval [start, start+len). -/
structure Range where
  start : Nat
  len : Nat
deriving DecidableEq, Repr

/-- Embeds the Rust struct `MappingRange { from: usize, to: usize, len: usize }`:
one shift rule, with source start `from`, destination start `to` and length `len`. -/
structure MappingRange where
  «from» : Nat
  «to» : Nat
  len : Nat
deriving DecidableEq, Repr

/-- Embeds `MappingRange::adjust`: shift a value by the rule offset.
The Rust code branches on `from > to` to stay inside `usize`; on every
call site the argument is at least `from`, so `Nat` subtraction is exact. -/
def MappingRange.adjust (m : MappingRange) (value : Nat) : Nat :=
  if m.«from» > m.«to» then value - (m.«from» - m.«to») else value + (m.«to» - m.«from»)

/-- Embeds `MappingRange::transform`: apply one shift rule to one interval,
returning `none` when the rule's overlap test fails, and otherwise the list
of pieces pushed by the Rust code, in push order. -/
def MappingRange.transform (m : MappingRange) (value : Range) : Option (List Range) :=
  if value.start > m.«from» + m.len ∨ value.start + value.len < m.«from» then
    none
  else
    let value_end := value.start + value.len
    let mapping_end := m.«from» + m.len
    if value.start ≥ m.«from» ∧ value_end ≤ mapping_end then
      some [Range.mk (m.adjust value.start) value.len]
    else if value.start ≥ m.«from» then
      let intersect_len := mapping_end - value.start
      some [Range.mk (m.adjust (value.start + intersect_len)) intersect_len,
            Range.mk (value.start + intersect_len) (value.len - intersect_len)]
    else
      let intersect_len := m.«from» - value.start
      some [Range.mk value.start (value.len - intersect_len),
            Range.mk (m.adjust (value.start + intersect_len)) intersect_len]

/-- Embeds the Rust struct `Mapping`: one stage of the chain. -/
structure Mapping where
  «from» : Entry
  «to» : Entry
  entries : List MappingRange
deriving DecidableEq, Repr

/-- Helper for `Mapping.get`: the Rust `for` loop over `self.entries`,
returning the first `Some` result of `transform`. -/
def Mapping.getList (entries : List MappingRange) (range : Range) : Option (List Range) :=
  match entries with
  | [] => none
  | m :: rest =>
    match m.transform range with
    | some result => some result
    | none => Mapping.getList rest range

/-- Embeds `Mapping::get`: try each rule in declaration order and return the
first rule's `transform` output, or `none` when every rule declines. -/
def Mapping.get (m : Mapping) (range : Range) : Option (List Range) :=
  Mapping.getList m.entries range

/-- The per-interval behaviour of one stage, as used by `Almanac::map`
(line 179 of the source): the first overlapping rule's pieces, or the
interval itself unchanged when no rule overlaps
(`mapping.get(range).unwrap_or_else(|| vec![*range])`). -/
def stageApply (m : Mapping) (range : Range) : List Range :=
  (m.get range).getD [range]

/-- Sum of the lengths of a list of intervals. -/
def sumLens (l : List Range) : Nat :=
  l.foldr (fun r acc => r.len + acc) 0

/-- Number of output pieces of `l` whose half-open span contains the point `p`. -/
def covCount (l : List Range) (p : Nat) : Nat :=
  l.countP (fun r => decide (r.start ≤ p ∧ p < r.start + r.len))

/-- The shift rule (dest_start=52, source_start=50, length=48) from the
spec scenarios, as a `MappingRange` (`from` = source, `to` = dest). -/
def ruleA : MappingRange := MappingRange.mk 50 52 48

/-- A one-rule stage holding `ruleA`. -/
def stageA : Mapping := Mapping.mk Entry.Seed Entry.Soil [ruleA]

/-- Modelled from the claim (and spec section 4.1) for comparison with the
source-derived `transform`: the decomposition the C2 claim asserts for an
interval overlapping a rule — the untransformed left remainder before
source_start, the middle sub-range shifted by exactly
dest_start - source_start, and the untransformed right remainder starting at
source_start + length — keeping only the non-empty pieces. -/
def claimedRulePieces (r : MappingRange) (v : Range) : List Range :=
  let left := Range.mk v.start (r.«from» - v.start)
  let mid := Range.mk (max v.start r.«from» + r.«to» - r.«from»)
    (min (v.start + v.len) (r.«from» + r.len) - max v.start r.«from»)
  let right := Range.mk (r.«from» + r.len) (v.start + v.len - (r.«from» + r.len))
  [left, mid, right].filter (fun p => p.len != 0)

/-- Claim C2 counterexample: on the partial overlap of rule
(dest_start=52, source_start=50, length=48) with interval {start=90, len=20},
the claimed decomposition is [{92,8}, {98,12}] (middle [90,98) shifted by +2,
right remainder [98,110)), but the code returns [{100,8}, {98,12}]: the piece
{100,8} it emits is not among the claimed pieces in any order, because the
transformed piece is placed at adjust(source_end) = 100 rather than at
90 + (dest_start - source_start) = 92. -/
theorem C2_claimed_decomposition_cex :
    ruleA.transform (Range.mk 90 20) = some [Range.mk 100 8, Range.mk 98 12] ∧
    claimedRulePieces ruleA (Range.mk 90 20) = [Range.mk 92 8, Range.mk 98 12] ∧
    Range.mk 100 8 ∈ [Range.mk 100 8, Range.mk 98 12] ∧
    Range.mk 100 8 ∉ claimedRulePieces ruleA (Range.mk 90 20) := by
  decide

/-- Claim C2 as amended: for every interval fully contained in a shift rule's
source range, `transform` returns exactly one piece — the middle piece,
shifted by exactly dest_start - source_start; in particular the scenario
rule (dest_start=52, source_start=50, length=48) on {start=79, length=14}
yields exactly {start=81, length=14}. (Under partial overlap the code does
not produce the claimed decomposition; see the counterexample.) -/
theorem C2_contained_shifts_exactly (r : MappingRange) (v : Range)
    (h1 : r.«from» ≤ v.start) (h2 : v.start + v.len ≤ r.«from» + r.len) :
    r.transform v = some [Range.mk (v.start + r.«to» - r.«from») v.len] := by
  have hadj : r.adjust v.start = v.start + r.«to» - r.«from» := by
    unfold MappingRange.adjust
    split <;> omega
  simp only [MappingRange.transform]
  split_ifs with hA hB
  · exact absurd hA (by omega)
  · rw [hadj]
  · exact absurd ⟨h1, h2⟩ hB

/-- Witness for `C2_contained_shifts_exactly` at the spec scenario. -/
theorem C2_contained_shifts_exactly_witness :
    ruleA.transform (Range.mk 79 14) = some [Range.mk 81 14] :=
  C2_contained_shifts_exactly ruleA (Range.mk 79 14) (by decide) (by decide)

/-- Claim C5 (code_bug evaluation): the no-overlap scenario from the spec does
hold (rule (50,98,2) declines interval {79,14}), but the overlap test is off by
one: interval {40,10} = [40,50) is disjoint from ruleA's source range [50,98)
(since 40 + 10 = ruleA.from), yet `transform` does not return `none` — it
returns an empty left piece plus the whole interval shifted to {52,10}. -/
theorem C5_transform_eval :
    (MappingRange.mk 98 50 2).transform (Range.mk 79 14) = none ∧
    40 + 10 ≤ ruleA.«from» ∧
    ruleA.transform (Range.mk 40 10) = some [Range.mk 40 0, Range.mk 52 10] := by
  decide

/-- Claim C6 (code_bug evaluation): interval {40,10} = [40,50) intersects no
rule of `stageA` (the only source range is [50,98)), yet the stage does not
return it unchanged: the whole interval is shifted by +2 and an empty
artifact piece {40,0} is emitted. -/
theorem C6_stage_eval :
    40 + 10 ≤ ruleA.«from» ∧
    stageApply stageA (Range.mk 40 10) = [Range.mk 40 0, Range.mk 52 10] ∧
    stageApply stageA (Range.mk 40 10) ≠ [Range.mk 40 10] := by
  decide

/-- Claim C4 (code_bug evaluation): passing interval {90,20} through `stageA`
yields pieces [{100,8}, {98,12}]. The point 100 lies in both output pieces
(produced twice), while the image 92 = adjust(90) of the input point 90 lies
in no output piece (dropped), so the stage does not map every input point to
exactly one output point. -/
theorem C4_coverage_eval :
    stageApply stageA (Range.mk 90 20) = [Range.mk 100 8, Range.mk 98 12] ∧
    covCount (stageApply stageA (Range.mk 90 20)) 100 = 2 ∧
    ruleA.adjust 90 = 92 ∧
    covCount (stageApply stageA (Range.mk 90 20)) 92 = 0 := by
  decide

/-- First rule of the C1 counterexample stage: source [10,20) shifted to [100,110). -/
def ruleB1 : MappingRange := MappingRange.mk 10 100 10

/-- Second rule of the C1 counterexample stage: source [20,30) shifted to [200,210). -/
def ruleB2 : MappingRange := MappingRange.mk 20 200 10

/-- A two-rule stage holding `ruleB1` then `ruleB2`. -/
def stageB : Mapping := Mapping.mk Entry.Seed Entry.Soil [ruleB1, ruleB2]

/-- Claim C1 counterexample: on interval {15,10} = [15,25), the first rule
`ruleB1` overlaps partially and `Mapping.get` returns its pieces directly:
the untransformed remainder {20,5} = [20,25) is emitted as-is even though the
later untried rule `ruleB2` overlaps it (its source [20,30) contains 20) and
would transform it to {200,5}. The remainder is never evaluated against the
remaining rules of the stage. -/
theorem C1_no_reprocessing_cex :
    stageB.get (Range.mk 15 10) = some [Range.mk 110 5, Range.mk 20 5] ∧
    ruleB2.«from» ≤ 20 ∧ 20 < ruleB2.«from» + ruleB2.len ∧
    ruleB2.transform (Range.mk 20 5) = some [Range.mk 200 5] := by
  decide

/-- Claim C1 as amended: when the first rule of a stage overlaps an interval
(its `transform` returns pieces), `Mapping::get` returns exactly those pieces,
whatever the remaining rules are: untransformed remainder pieces are emitted
as-is and are never evaluated against the not-yet-tried rules of the stage. -/
theorem C1_first_rule_output_is_final (f t : Entry) (e : MappingRange)
    (rest : List MappingRange) (v : Range) (l : List Range)
    (h : e.transform v = some l) :
    (Mapping.mk f t (e :: rest)).get v = some l := by
  simp [Mapping.get, Mapping.getList, h]

/-- Witness for `C1_first_rule_output_is_final` at the counterexample stage. -/
theorem C1_first_rule_output_is_final_witness :
    (Mapping.mk Entry.Seed Entry.Soil [ruleB1, ruleB2]).get (Range.mk 15 10) =
      some [Range.mk 110 5, Range.mk 20 5] :=
  C1_first_rule_output_is_final Entry.Seed Entry.Soil ruleB1 [ruleB2]
    (Range.mk 15 10) [Range.mk 110 5, Range.mk 20 5] (by decide)

/-- Every piece list returned by `transform` sums to the input interval length:
each branch of the Rust code splits the interval without losing length. -/
theorem transform_sumLens (m : MappingRange) (v : Range) (l : List Range)
    (h : m.transform v = some l) : sumLens l = v.len := by
  simp only [MappingRange.transform] at h
  split_ifs at h with h1 h2 h3 <;>
    (injection h with h; subst h; simp only [sumLens, List.foldr]; omega)

/-- Length conservation for the rule-search loop of `Mapping::get`. -/
theorem getList_sumLens (entries : List MappingRange) (v : Range) (l : List Range)
    (h : Mapping.getList entries v = some l) : sumLens l = v.len := by
  induction entries with
  | nil => exact absurd h (by simp [Mapping.getList])
  | cons e rest ih =>
    rw [Mapping.getList] at h
    cases he : e.transform v with
    | none => rw [he] at h; exact ih h
    | some l0 =>
      rw [he] at h
      injection h with h
      subst h
      exact transform_sumLens e v l0 he

/-- Claim C3: length conservation. For every stage and every interval, the
lengths of the output pieces produced for that interval by one stage
(`stageApply`, the per-interval behaviour of `Almanac::map`) sum to the
interval's input length. -/
theorem C3_length_conservation (m : Mapping) (v : Range) :
    sumLens (stageApply m v) = v.len := by
  unfold stageApply Mapping.get
  cases h : Mapping.getList m.entries v with
  | none => simp [sumLens]
  | some l => simpa using getList_sumLens m.entries v l h

/-- Witness for `C3_length_conservation`: hypothesis-free instantiation at the
counterexample stage and interval. -/
theorem C3_length_conservation_witness :
    sumLens (stageApply stageB (Range.mk 15 10)) = 10 :=
  C3_length_conservation stageB (Range.mk 15 10)

/-- Association-list model of the Rust `HashMap<Entry, Mapping>`: lookup of
the stage registered for a source category. -/
def lookupMapping (ms : List (Entry × Mapping)) (e : Entry) : Option Mapping :=
  match ms with
  | [] => none
  | (k, m) :: rest => if k = e then some m else lookupMapping rest e

/-- Association-list model of `HashMap::insert`: replaces the entry for an
existing key, otherwise appends. -/
def insertMapping (ms : List (Entry × Mapping)) (k : Entry) (m : Mapping) :
    List (Entry × Mapping) :=
  match ms with
  | [] => [(k, m)]
  | (k0, m0) :: rest =>
    if k0 = k then (k, m) :: rest else (k0, m0) :: insertMapping rest k m

/-- Embeds the Rust struct `Almanac`. -/
structure Almanac where
  seeds : List Range
  mappings : List (Entry × Mapping)
deriving DecidableEq, Repr

/-- Embeds `Almanac::map`: look up the stage registered for the source
category `e`; on failure return the lookup error, otherwise the stage's
destination category together with `stageApply` of the interval
(`mapping.get(range).unwrap_or_else(|| vec![*range])`). -/
def Almanac.map (a : Almanac) (range : Range) (e : Entry) :
    Except String (Entry × List Range) :=
  match lookupMapping a.mappings e with
  | none => Except.error "Failed to find mapping for entry"
  | some mp => Except.ok (mp.«to», stageApply mp range)

/-- Helper for one iteration of the `loop` of `seed_range_to_min_location`:
the `for range in ranges` body, carrying the running `next_entry` and the
accumulated `next_ranges`. -/
def stepRangesAux (a : Almanac) (entry : Entry) :
    List Range → Entry → List Range → Except String (Entry × List Range)
  | [], ne, acc => Except.ok (ne, acc)
  | r :: rest, _, acc =>
    match a.map r entry with
    | Except.error e => Except.error e
    | Except.ok (e2, upd) => stepRangesAux a entry rest e2 (acc ++ upd)

/-- One iteration of the chain loop: maps every interval of the working set
through the stage registered for `entry`, returning the next category and
the concatenated output intervals (`next_entry`, `next_ranges`). -/
def stepRanges (a : Almanac) (entry : Entry) (ranges : List Range) :
    Except String (Entry × List Range) :=
  stepRangesAux a entry ranges entry []

/-- Insertion step for the model of `ranges.sort_by(|x, y| x.start.cmp(&y.start))`. -/
def insertRange (r : Range) : List Range → List Range
  | [] => [r]
  | x :: xs => if r.start ≤ x.start then r :: x :: xs else x :: insertRange r xs

/-- Model of `ranges.sort_by(|x, y| x.start.cmp(&y.start))`: insertion sort
on the interval start values. -/
def sortByStart (l : List Range) : List Range :=
  match l with
  | [] => []
  | r :: rest => insertRange r (sortByStart rest)

/-- Result type of the fueled chain runner. `timeout` marks fuel exhaustion
(the Rust loop is still running), `panicked` marks the `ranges[0]` index
panic on an empty final list, `err` a returned `anyhow` error, `ok` the
returned minimum location. -/
inductive RunResult where
  | timeout
  | panicked
  | err (msg : String)
  | ok (v : Nat)
deriving DecidableEq, Repr

/-- The code after the loop of `seed_range_to_min_location`: sort the final
intervals by start and index the first element (`Ok(ranges[0].start)`),
panicking when the list is empty. -/
def finish (ranges : List Range) : RunResult :=
  match sortByStart ranges with
  | [] => RunResult.panicked
  | r :: _ => RunResult.ok r.start

/-- The fueled embedding of the `loop` in `seed_range_to_min_location`:
run one `stepRanges` iteration, propagate errors, exit through `finish`
once the current category is `Location`, and otherwise recurse. -/
def runChainAux (a : Almanac) : Nat → Entry → List Range → RunResult
  | 0, _, _ => RunResult.timeout
  | Nat.succ fuel, entry, ranges =>
    match stepRanges a entry ranges with
    | Except.error e => RunResult.err e
    | Except.ok (e2, r2) =>
      if e2 = Entry.Location then finish r2 else runChainAux a fuel e2 r2

/-- Embeds `Almanac::seed_range_to_min_location`, starting the fueled loop
at category `Seed` with the parsed seed intervals. -/
def Almanac.seedRangeToMinLocation (a : Almanac) (fuel : Nat) : RunResult :=
  runChainAux a fuel Entry.Seed a.seeds

/-- The chain of categories followed from `e` stops within `k` steps: either
a category with no registered stage is reached (the lookup error case), or a
stage whose destination is `Location`. -/
def followStops (ms : List (Entry × Mapping)) : Nat → Entry → Bool
  | 0, _ => false
  | Nat.succ k, e =>
    match lookupMapping ms e with
    | none => true
    | some m => m.«to» = Entry.Location || followStops ms k m.«to»

/-- Every piece list returned by `transform` is non-empty: each Rust branch
pushes at least one `Range` before returning `Some`. -/
theorem transform_ne_nil (m : MappingRange) (v : Range) (l : List Range)
    (h : m.transform v = some l) : l ≠ [] := by
  simp only [MappingRange.transform] at h
  split_ifs at h <;> (injection h with h; subst h; simp)

/-- Every piece list returned by the rule-search loop of `Mapping::get` is
non-empty. -/
theorem getList_ne_nil (entries : List MappingRange) (v : Range) (l : List Range)
    (h : Mapping.getList entries v = some l) : l ≠ [] := by
  induction entries with
  | nil => exact absurd h (by simp [Mapping.getList])
  | cons e rest ih =>
    rw [Mapping.getList] at h
    cases he : e.transform v with
    | none => rw [he] at h; exact ih h
    | some l0 =>
      rw [he] at h
      injection h with h
      subst h
      exact transform_ne_nil e v l0 he

/-- One stage never returns an empty piece list for an interval: either the
first overlapping rule's non-empty pieces, or the interval itself. -/
theorem stageApply_ne_nil (m : Mapping) (v : Range) : stageApply m v ≠ [] := by
  unfold stageApply Mapping.get
  cases h : Mapping.getList m.entries v with
  | none => simp
  | some l => simpa using getList_ne_nil m.entries v l h

/-- The loop body over a non-empty working set, when the stage lookup for the
current category succeeds, returns the stage's destination category and a
non-empty interval list. -/
theorem stepRangesAux_some (a : Almanac) (e : Entry) (mp : Mapping)
    (hm : lookupMapping a.mappings e = some mp) :
    ∀ (rs : List Range) (r : Range) (ne : Entry) (acc : List Range),
      ∃ out, stepRangesAux a e (r :: rs) ne acc = Except.ok (mp.«to», out) ∧ out ≠ [] := by
  intro rs
  induction rs with
  | nil =>
    intro r ne acc
    refine ⟨acc ++ stageApply mp r, ?_, ?_⟩
    · simp [stepRangesAux, Almanac.map, hm]
    · intro hc
      exact stageApply_ne_nil mp r (List.append_eq_nil.mp hc).2
  | cons r2 rs ih =>
    intro r ne acc
    obtain ⟨out, h1, h2⟩ := ih r2 mp.«to» (acc ++ stageApply mp r)
    refine ⟨out, ?_, h2⟩
    rw [stepRangesAux]
    simp only [Almanac.map, hm]
    exact h1

/-- The loop body over a non-empty working set, when the stage lookup for the
current category fails, propagates the lookup error. -/
theorem stepRanges_lookup_fail (a : Almanac) (e : Entry) (r : Range) (rs : List Range)
    (hm : lookupMapping a.mappings e = none) :
    stepRanges a e (r :: rs) = Except.error "Failed to find mapping for entry" := by
  simp [stepRanges, stepRangesAux, Almanac.map, hm]

/-- `insertRange` never produces the empty list. -/
theorem insertRange_ne_nil (r : Range) (l : List Range) : insertRange r l ≠ [] := by
  cases l with
  | nil => simp [insertRange]
  | cons x xs =>
    rw [insertRange]
    split <;> simp

/-- Sorting a non-empty interval list yields a non-empty list. -/
theorem sortByStart_ne_nil (l : List Range) (h : l ≠ []) : sortByStart l ≠ [] := by
  cases l with
  | nil => exact absurd rfl h
  | cons r rest => exact insertRange_ne_nil r (sortByStart rest)

/-- On a non-empty final interval list, the post-loop code returns a value
and does not panic. -/
theorem finish_ne_timeout (l : List Range) (h : l ≠ []) :
    finish l ≠ RunResult.timeout := by
  unfold finish
  cases hs : sortByStart l with
  | nil => exact absurd hs (sortByStart_ne_nil l h)
  | cons r t => simp

/-- With an empty working interval set and a current category other than
`Location`, the chain loop spins forever: each iteration maps nothing and
leaves the state unchanged, so every fuel bound is exhausted. -/
theorem runChain_empty (a : Almanac) (fuel : Nat) (e : Entry)
    (he : e ≠ Entry.Location) : runChainAux a fuel e [] = RunResult.timeout := by
  induction fuel with
  | zero => rfl
  | succ fuel ih =>
    rw [runChainAux]
    show (match stepRanges a e [] with
      | Except.error msg => RunResult.err msg
      | Except.ok (e2, r2) =>
        if e2 = Entry.Location then finish r2 else runChainAux a fuel e2 r2) =
      RunResult.timeout
    have hstep : stepRanges a e [] = Except.ok (e, []) := rfl
    rw [hstep]
    simp only [if_neg he]
    exact ih

/-- For a non-empty working set, the fueled chain loop halts (with a value or
an error, never by running out of fuel) whenever the category chain followed
from the current category stops within the fuel bound. -/
theorem runChain_stops (a : Almanac) :
    ∀ (k : Nat) (e : Entry) (ranges : List Range),
      ranges ≠ [] → followStops a.mappings k e = true →
      runChainAux a k e ranges ≠ RunResult.timeout := by
  intro k
  induction k with
  | zero =>
    intro e ranges _ hf
    exact absurd hf (by simp [followStops])
  | succ k ih =>
    intro e ranges hne hf
    rcases ranges with _ | ⟨r, rs⟩
    · exact absurd rfl hne
    rw [followStops] at hf
    cases hm : lookupMapping a.mappings e with
    | none =>
      rw [runChainAux, stepRanges_lookup_fail a e r rs hm]
      simp
    | some mp =>
      rw [hm] at hf
      obtain ⟨out, h1, h2⟩ := stepRangesAux_some a e mp hm rs r e []
      rw [runChainAux]
      show (match stepRanges a e (r :: rs) with
        | Except.error msg => RunResult.err msg
        | Except.ok (e2, r2) =>
          if e2 = Entry.Location then finish r2 else runChainAux a k e2 r2) ≠
        RunResult.timeout
      rw [show stepRanges a e (r :: rs) = Except.ok (mp.«to», out) from h1]
      by_cases hloc : mp.«to» = Entry.Location
      · simp only [if_pos hloc]
        exact finish_ne_timeout out h2
      · simp only [if_neg hloc]
        simp [hloc] at hf
        exact ih mp.«to» out h2 hf

/-- Claim C9: with a non-empty seed interval list, and a mapping chain that,
followed from `Seed` through each stage's destination category, reaches
`Location` or a category with no registered mapping within `k` stages,
`seed_range_to_min_location` terminates within fuel `k` (with a value or an
error, never by exhausting the fuel); and with an empty seed list the loop
body never updates the state, so the function never terminates (every fuel
bound is exhausted). -/
theorem C9_termination :
    (∀ (a : Almanac) (k : Nat), a.seeds ≠ [] →
      followStops a.mappings k Entry.Seed = true →
      a.seedRangeToMinLocation k ≠ RunResult.timeout) ∧
    (∀ (ms : List (Entry × Mapping)) (fuel : Nat),
      (Almanac.mk [] ms).seedRangeToMinLocation fuel = RunResult.timeout) := by
  constructor
  · intro a k hs hf
    simp only [Almanac.seedRangeToMinLocation]
    exact runChain_stops a k Entry.Seed a.seeds hs hf
  · intro ms fuel
    simp only [Almanac.seedRangeToMinLocation]
    exact runChain_empty (Almanac.mk [] ms) fuel Entry.Seed (by decide)

/-- Concrete almanac for the C9 witness: one seed interval and a single
stage from `Seed` straight to `Location`. -/
def almanacW : Almanac :=
  Almanac.mk [Range.mk 82 1] [(Entry.Seed, Mapping.mk Entry.Seed Entry.Location [])]

/-- Witness for `C9_termination` at `almanacW` with fuel 1. -/
theorem C9_termination_witness :
    almanacW.seedRangeToMinLocation 1 ≠ RunResult.timeout :=
  C9_termination.1 almanacW 1 (by decide) (by decide)

/-- Concrete almanac with an empty seed list for the C7 counterexample. -/
def almanacE : Almanac :=
  Almanac.mk [] [(Entry.Seed, Mapping.mk Entry.Seed Entry.Soil [ruleA])]

/-- Claim C7 counterexample: on a run whose interval set is empty (empty
initial seed list), the engine does not report an error and does not return
a value: one loop iteration maps the state (Seed, []) to itself without
erroring, and the run is still not finished after 1000 iterations. There is
no path that reports a "no minimum found" error. -/
theorem C7_no_error_cex :
    stepRanges almanacE Entry.Seed [] = Except.ok (Entry.Seed, []) ∧
    almanacE.seedRangeToMinLocation 1000 = RunResult.timeout := by
  constructor
  · rfl
  · exact runChain_empty almanacE 1000 Entry.Seed (by decide)

/-- Claim C7 as amended: when no intervals remain (the initial interval set
is empty), the engine neither reports an error nor returns a value: the loop
body leaves the state (Seed, empty set) unchanged without erroring, so the
termination test is never reached and the run exhausts every fuel bound.
No "no minimum found" error path exists in the code. -/
theorem C7_empty_never_reports (ms : List (Entry × Mapping)) (fuel : Nat) :
    stepRanges (Almanac.mk [] ms) Entry.Seed [] = Except.ok (Entry.Seed, []) ∧
    runChainAux (Almanac.mk [] ms) fuel Entry.Seed [] = RunResult.timeout :=
  ⟨rfl, runChain_empty (Almanac.mk [] ms) fuel Entry.Seed (by decide)⟩

/-- Rust `char::is_ascii_whitespace`: space, tab, newline, form feed,
carriage return. -/
def isAsciiWs (c : Char) : Bool :=
  c = ' ' || c = '\t' || c = '\n' || c = Char.ofNat 12 || c = '\r'

/-- Helper for `splitWs`: scans the characters, accumulating the current
token in reverse, and drops empty tokens as `split_ascii_whitespace` does. -/
def splitWsAux : List Char → List Char → List String
  | [], acc => if acc.isEmpty then [] else [String.mk acc.reverse]
  | c :: cs, acc =>
    if isAsciiWs c then
      if acc.isEmpty then splitWsAux cs []
      else String.mk acc.reverse :: splitWsAux cs []
    else splitWsAux cs (c :: acc)

/-- Model of Rust `str::split_ascii_whitespace` (as a list of tokens). -/
def splitWs (s : String) : List String :=
  splitWsAux s.toList []

/-- Decimal value of a digit list. -/
def digitsToNat (cs : List Char) : Nat :=
  cs.foldl (fun acc c => acc * 10 + (c.toNat - 48)) 0

/-- Model of Rust `usize::from_str`: an optional leading plus sign, then one
or more decimal digits, whose value fits in a 64-bit `usize`. -/
def parseUsize (s : String) : Option Nat :=
  let cs :=
    match s.toList with
    | '+' :: rest => rest
    | cs => cs
  if cs ≠ [] ∧ cs.all Char.isDigit ∧ digitsToNat cs < 18446744073709551616 then
    some (digitsToNat cs)
  else none

/-- Model of Rust `Iterator::map_while`: maps with `f`, stopping at the
first element on which `f` returns `none`. -/
def mapWhile {α β : Type} (f : α → Option β) : List α → List β
  | [] => []
  | a :: rest =>
    match f a with
    | some b => b :: mapWhile f rest
    | none => []

/-- Embeds `MappingRange::from_str`: collect the longest prefix of
whitespace-separated tokens that parse as integers; error unless exactly 3,
otherwise read them as (m[0], m[1], m[2]) = (to, from, len). -/
def MappingRange.fromStr (s : String) : Except String MappingRange :=
  let m := mapWhile parseUsize (splitWs s)
  if h : m.length = 3 then
    Except.ok (MappingRange.mk (m.get ⟨1, by omega⟩) (m.get ⟨0, by omega⟩)
      (m.get ⟨2, by omega⟩))
  else
    Except.error ("Failed to parse range: " ++ s)

/-- Helper for `splitOnce`: scan for the first occurrence of `c`. -/
def splitOnceAux (c : Char) : List Char → List Char → Option (String × String)
  | [], _ => none
  | x :: xs, acc =>
    if x = c then some (String.mk acc.reverse, String.mk xs)
    else splitOnceAux c xs (x :: acc)

/-- Model of Rust `str::split_once`: the substrings before and after the
first occurrence of the delimiter, or `none` when it does not occur. -/
def splitOnce (c : Char) (s : String) : Option (String × String) :=
  splitOnceAux c s.toList []

/-- Helper for `splitChar`: split at every occurrence of `c`, keeping empty
pieces as Rust `str::split` does. -/
def splitCharAux (c : Char) : List Char → List Char → List String
  | [], acc => [String.mk acc.reverse]
  | x :: xs, acc =>
    if x = c then String.mk acc.reverse :: splitCharAux c xs []
    else splitCharAux c xs (x :: acc)

/-- Model of Rust `str::split` on a single character. -/
def splitChar (c : Char) (s : String) : List String :=
  splitCharAux c s.toList []

/-- Embeds `Entry::from_str`. -/
def Entry.fromStr (s : String) : Except String Entry :=
  match s with
  | "seed" => Except.ok Entry.Seed
  | "soil" => Except.ok Entry.Soil
  | "fertilizer" => Except.ok Entry.Fertilizer
  | "water" => Except.ok Entry.Water
  | "light" => Except.ok Entry.Light
  | "temperature" => Except.ok Entry.Temperature
  | "humidity" => Except.ok Entry.Humidity
  | "location" => Except.ok Entry.Location
  | _ => Except.error ("Unknown type: " ++ s)

/-- Embeds `Almanac::parse_mapping_type`: take the part of a header line
before the first space, split it at dashes, keep the pieces that name
categories, and require exactly two. -/
def parseMappingType (input : String) : Except String (Entry × Entry) :=
  match splitOnce ' ' input with
  | none => Except.error ("Failed to split " ++ input)
  | some (t, _) =>
    match (splitChar '-' t).filterMap (fun s => (Entry.fromStr s).toOption) with
    | [a, b] => Except.ok (a, b)
    | _ => Except.error ("Failed to parse " ++ input)

/-- Model of `line.trim().is_empty()`: every character is whitespace. Rust
trims Unicode whitespace; for the ASCII input format the sets agree. -/
def trimIsEmpty (s : String) : Bool :=
  s.toList.all Char.isWhitespace

/-- The seed-pair loop `for n in (0..seed_ranges.len()).step_by(2)` of
`Almanac::try_from`: pairs up (start, len). On an odd-length list the last
iteration indexes `seed_ranges[n + 1]` out of bounds; `none` models that
panic. -/
def seedPairs : List Nat → Option (List Range)
  | [] => some []
  | [_] => none
  | a :: b :: rest => (seedPairs rest).map (fun l => Range.mk a b :: l)

/-- Result of a fallible Rust constructor that can also panic. -/
inductive PResult (α : Type) where
  | panicked
  | error (msg : String)
  | ok (a : α)
deriving DecidableEq, Repr

/-- The line loop of `Almanac::try_from`, carrying the `seeds`, `mappings`
and `current_mapping` variables; after the last line the pending mapping is
flushed, as in the source. -/
def tryFromLoop :
    List String → List Range → List (Entry × Mapping) → Option Mapping → PResult Almanac
  | [], seeds, ms, cur =>
    match cur with
    | some m => PResult.ok (Almanac.mk seeds (insertMapping ms m.«from» m))
    | none => PResult.ok (Almanac.mk seeds ms)
  | line :: rest, seeds, ms, cur =>
    if seeds = [] then
      match splitOnce ':' line with
      | none => PResult.error ("Failed to split " ++ line)
      | some (title, seedS) =>
        if title ≠ "seeds" then PResult.error ("Invalid seed line " ++ line)
        else
          match seedPairs ((splitWs seedS).filterMap parseUsize) with
          | none => PResult.panicked
          | some newSeeds => tryFromLoop rest newSeeds ms cur
    else if trimIsEmpty line then
      match cur with
      | some m => tryFromLoop rest seeds (insertMapping ms m.«from» m) none
      | none => tryFromLoop rest seeds ms none
    else
      match cur with
      | some m =>
        match MappingRange.fromStr line with
        | Except.error e => PResult.error e
        | Except.ok mr =>
          tryFromLoop rest seeds ms (some (Mapping.mk m.«from» m.«to» (m.entries ++ [mr])))
      | none =>
        match parseMappingType line with
        | Except.error e => PResult.error e
        | Except.ok (f, t) => tryFromLoop rest seeds ms (some (Mapping.mk f t []))

/-- Embeds `impl TryFrom<Vec<String>> for Almanac`. -/
def Almanac.tryFrom (lines : List String) : PResult Almanac :=
  tryFromLoop lines [] [] none

/-- Claim C8 counterexample: the line "1 2 3 x" has four whitespace-separated
fields, one of them non-numeric, yet `MappingRange::from_str` parses it
successfully (as from=2, to=1, len=3): `map_while` stops at the first
non-integer token, so the field count is never checked. -/
theorem C8_wrong_field_count_parses :
    splitWs "1 2 3 x" = ["1", "2", "3", "x"] ∧
    MappingRange.fromStr "1 2 3 x" = Except.ok (MappingRange.mk 2 1 3) := by
  exact ⟨by decide, by rfl⟩

/-- `map_while` keeps exactly the values of the longest prefix of mapped
elements that are `some`: it equals mapping everything, truncating at the
first `none`, and extracting the values. -/
theorem mapWhile_eq_takeWhile {α β : Type} (f : α → Option β) (l : List α) :
    mapWhile f l = ((l.map f).takeWhile Option.isSome).reduceOption := by
  induction l with
  | nil => rfl
  | cons a rest ih =>
    cases hf : f a with
    | none => simp [mapWhile, hf, List.takeWhile_cons]
    | some b => simp [mapWhile, hf, List.takeWhile_cons, List.reduceOption_cons_of_some, ih]

/-- Claim C8 as amended: a rule line parses successfully exactly when the
longest prefix of its whitespace-separated tokens that parse as non-negative
integers has length exactly three — the first three tokens must be integers
and the fourth token, when present, must not be. A successful parse reads
the three integers in the order (dest_start, source_start, length); any
other integer-prefix length is a parse failure reported to the caller. -/
theorem C8_parse_prefix_semantics :
    (∀ (l : List String), mapWhile parseUsize l =
      ((l.map parseUsize).takeWhile Option.isSome).reduceOption) ∧
    (∀ (s : String) (a b c : Nat), mapWhile parseUsize (splitWs s) = [a, b, c] →
      MappingRange.fromStr s = Except.ok (MappingRange.mk b a c)) ∧
    (∀ (s : String), (mapWhile parseUsize (splitWs s)).length ≠ 3 →
      MappingRange.fromStr s = Except.error ("Failed to parse range: " ++ s)) := by
  refine ⟨mapWhile_eq_takeWhile parseUsize, ?_, ?_⟩
  · intro s a b c h
    simp [MappingRange.fromStr, h]
  · intro s h
    simp [MappingRange.fromStr, h]

/-- Witness for `C8_parse_prefix_semantics` at a concrete rule line. -/
theorem C8_parse_prefix_semantics_witness :
    MappingRange.fromStr "49 53 8" = Except.ok (MappingRange.mk 53 49 8) :=
  C8_parse_prefix_semantics.2.1 "49 53 8" 49 53 8 (by decide)

/-- On an odd-length list of seed numbers, the pairing loop of
`Almanac::try_from` reaches the out-of-bounds index `seed_ranges[n + 1]`. -/
theorem seedPairs_odd : ∀ (l : List Nat), l.length % 2 = 1 → seedPairs l = none
  | [], h => by simp at h
  | [_], _ => rfl
  | _ :: _ :: rest, h => by
    have hr : rest.length % 2 = 1 := by
      simp only [List.length_cons] at h
      omega
    simp [seedPairs, seedPairs_odd rest hr]

/-- Claim C10: whenever the first input line is a seeds line (it splits at
the first colon into the title "seeds" and a remainder) whose remainder
contains an odd count of integer tokens, `Almanac::try_from` panics with the
out-of-bounds index `seed_ranges[n + 1]` instead of reporting a parse error:
construction is total only for even counts. -/
theorem C10_odd_seed_count_panics (line seedS : String) (rest : List String)
    (hsplit : splitOnce ':' line = some ("seeds", seedS))
    (hodd : ((splitWs seedS).filterMap parseUsize).length % 2 = 1) :
    Almanac.tryFrom (line :: rest) = PResult.panicked := by
  have hsp : seedPairs ((splitWs seedS).filterMap parseUsize) = none :=
    seedPairs_odd _ hodd
  simp [Almanac.tryFrom, tryFromLoop, hsplit, hsp]

/-- Witness for `C10_odd_seed_count_panics` on the line "seeds: 79 14 55". -/
theorem C10_odd_seed_count_panics_witness :
    Almanac.tryFrom ["seeds: 79 14 55"] = PResult.panicked :=
  C10_odd_seed_count_panics "seeds: 79 14 55" " 79 14 55" [] (by decide) (by decide)
